import Mathlib

/-!
Shallow embedding of `src/app/scripts/svgpathdata.ts` (the SVG path-data
engine: derivation pass, sub-path grouping, morphability, interpolation,
projection and split).  Numbers are modelled as rationals; external
collaborators that are not part of the repository (the Bezier kernel from
`bezierutil`, `mathutil`, `svgutil.arcToBeziers`, the path parser) are
modelled from the specification where the engine depends on them, and each
such definition is marked `Modelled from the spec`.
-/

set_option allowUnsafeReducibility true in
attribute [semireducible] Rat.add Rat.mul Rat.inv Rat.sub Rat.ofScientific

/-- Geometric point with rational coordinates (mathutil.Point). -/
structure Point where
  x : ℚ
  y : ℚ
deriving DecidableEq, Repr

/-- Modelled from the spec: mathutil.lerp, linear interpolation
`a + (b - a) * f` (mathutil is an external collaborator). -/
def lerp (a b f : ℚ) : ℚ := a + (b - a) * f

/-- Componentwise linear interpolation of two points
(`new Point(lerp(sx, ex, f), lerp(sy, ey, f))`). -/
def lerpPt (a b : Point) (f : ℚ) : Point := ⟨lerp a.x b.x f, lerp a.y b.y f⟩

/-- Squared Euclidean distance between two points.  Modelled from the spec:
the kernel compares and reports Euclidean distances; we record the squared
distance, which is order-isomorphic to it, to stay inside the rationals. -/
def sqDist (a b : Point) : ℚ := (a.x - b.x) ^ 2 + (a.y - b.y) ^ 2

/-- The closed set of DrawCommand variants
(svgcommands.ts: Move, Line, QuadraticCurve, BezierCurve, EllipticalArc,
ClosePath; the class of a command in the source). -/
inductive Variant
  | move
  | line
  | quad
  | cubic
  | arc
  | close
deriving DecidableEq, Repr

/-- A draw command: its variant (the source class), its ordered point list
(entries may be absent, e.g. a Move's conceptual previous point), and the
raw numeric arguments (9 of them for EllipticalArc, empty otherwise). -/
structure DrawCommand where
  variant : Variant
  points : List (Option Point)
  args : List ℚ
deriving DecidableEq, Repr

instance : Inhabited DrawCommand := ⟨⟨.move, [], []⟩⟩

/-- MoveCommand with its (absent) previous point and its end point. -/
def mkMove (p : Point) : DrawCommand := ⟨.move, [none, some p], []⟩

/-- LineCommand from a start point to an end point. -/
def mkLine (p q : Point) : DrawCommand := ⟨.line, [some p, some q], []⟩

/-- ClosePathCommand, as produced by the parser. -/
def mkClose : DrawCommand := ⟨.close, [none, none], []⟩

/-- EllipticalArcCommand carrying its 9 raw arguments
`(x0, y0, rx, ry, xRot, largeArc, sweep, x1, y1)`. -/
def mkArc (args : List ℚ) : DrawCommand :=
  ⟨.arc, [some ⟨args.getD 0 0, args.getD 1 0⟩, some ⟨args.getD 7 0, args.getD 8 0⟩], args⟩

/-- Point at index `i` of a command.  Out-of-range access corresponds to a
JS `undefined`; it is never reached on parser-produced commands. -/
def DrawCommand.ptAt (d : DrawCommand) (i : Nat) : Point :=
  (d.points.getD i none).getD ⟨0, 0⟩

/-- A SubPathCommand: an ordered grouping of consecutive DrawCommands. -/
structure SubPathCommand where
  commands : List DrawCommand
deriving DecidableEq, Repr

/-- One step of the backward scan of `createSubPathCommands`: append the
command to the running group and, if it is a Move, close the group. -/
def subGroupStep (acc : List (List DrawCommand) × List DrawCommand) (cmd : DrawCommand) :
    List (List DrawCommand) × List DrawCommand :=
  let cur := acc.2 ++ [cmd]
  if cmd.variant = .move then (acc.1 ++ [cur], []) else (acc.1, cur)

/-- createSubPathCommands (svgpathdata.ts lines 162-177): scan the command
list backward, accumulating groups closed at each Move, then restore
forward order by reversing the group list and each group. -/
def createSubPathCommands (drawCommands : List DrawCommand) : List SubPathCommand :=
  if drawCommands.isEmpty then [] else
  let scanned := drawCommands.reverse.foldl subGroupStep ([], [])
  (scanned.1.reverse.map List.reverse).map SubPathCommand.mk

/-- Concatenation of the command lists of a list of SubPathCommands. -/
def flattenSubPaths (sps : List SubPathCommand) : List DrawCommand :=
  (sps.map SubPathCommand.commands).flatten

/-- Modelled from the spec: a cubic (or quadratic) Bezier curve of the
external Bezier kernel (bezierutil), identified by its control points. -/
structure Bezier where
  points : List Point
deriving DecidableEq, Repr

/-- Start point of a Bezier. -/
def Bezier.start (b : Bezier) : Point := b.points.headD ⟨0, 0⟩

/-- End point of a Bezier. -/
def Bezier.endPt (b : Bezier) : Point := b.points.getLastD ⟨0, 0⟩

/-- First control point of a Bezier. -/
def Bezier.cp1 (b : Bezier) : Point := b.points.getD 1 ⟨0, 0⟩

/-- Second control point of a Bezier. -/
def Bezier.cp2 (b : Bezier) : Point := b.points.getD 2 ⟨0, 0⟩

/-- One de Casteljau level: pairwise interpolation of consecutive control
points at parameter `t`. -/
def deCasteljauStep (t : ℚ) : List Point → List Point
  | [] => []
  | [_] => []
  | p :: q :: rest => lerpPt p q t :: deCasteljauStep t (q :: rest)

/-- Point on the curve at parameter `t`, by iterated de Casteljau
reduction (the fuel is the number of control points). -/
def deCasteljauAux (t : ℚ) : Nat → List Point → Point
  | 0, ps => ps.headD ⟨0, 0⟩
  | _ + 1, [] => ⟨0, 0⟩
  | _ + 1, [p] => p
  | n + 1, p :: q :: rest => deCasteljauAux t n (deCasteljauStep t (p :: q :: rest))

/-- Modelled from the spec: evaluation of a Bezier curve at parameter `t`
(part of the external Bezier kernel). -/
def Bezier.compute (b : Bezier) (t : ℚ) : Point := deCasteljauAux t b.points.length b.points

/-- De Casteljau split of a control polygon at `t`, collecting the left
and right sub-curve control polygons (fuel as in `deCasteljauAux`). -/
def splitAux (t : ℚ) : Nat → List Point → List Point × List Point
  | _, [] => ([], [])
  | _, [p] => ([p], [p])
  | 0, ps => (ps, ps)
  | n + 1, p :: q :: rest =>
      let res := splitAux t n (deCasteljauStep t (p :: q :: rest))
      (p :: res.1, res.2 ++ [(p :: q :: rest).getLastD ⟨0, 0⟩])

/-- Modelled from the spec: kernel split of a curve at a single parameter,
returning the left and right sub-curves. -/
def Bezier.splitAt (b : Bezier) (t : ℚ) : Bezier × Bezier :=
  let res := splitAux t b.points.length b.points
  (⟨res.1⟩, ⟨res.2⟩)

/-- Modelled from the spec: kernel split of a curve to the parameter
sub-range `[t1, t2]` (bezier.js `split(t1, t2)`: `t1 = 0` takes the left of
a single split, `t2 = 1` the right, otherwise the right part is split again
at the rescaled parameter `(t2 - t1) / (1 - t1)`). -/
def Bezier.split (b : Bezier) (t1 t2 : ℚ) : Bezier :=
  if t1 = 0 then (b.splitAt t2).1
  else if t2 = 1 then (b.splitAt t1).2
  else (((b.splitAt t1).2).splitAt ((t2 - t1) / (1 - t1))).1

/-- A closest-point projection result `{x, y, t, d}` of the Bezier kernel
(`d` is recorded as a squared distance, see `sqDist`). -/
structure Projection where
  x : ℚ
  y : ℚ
  t : ℚ
  d : ℚ
deriving DecidableEq, Repr

/-- Modelled from the spec: the kernel's closest-point projection of a
query point onto a curve.  We search a fixed parameter lattice
`0, 1/16, ..., 1`, keeping the first candidate under strictly smaller
squared distance; the kernel is deterministic, as §7 of the spec requires. -/
def Bezier.project (b : Bezier) (p : Point) : Projection :=
  let eval : ℚ → Projection := fun t =>
    let q := b.compute t
    ⟨q.x, q.y, t, sqDist q p⟩
  let cands := (List.range 17).map fun i => (i : ℚ) / 16
  cands.foldl (fun best t => let c := eval t; if c.d < best.d then c else best) (eval 0)

/-- DrawCommandWrapper (svgpathdata.ts lines 296-370): pairs one source
command with its canonical Bezier segments and owns its split state.  The
mutable back-reference to the owning SvgPathData is modelled by the
state-passing operations on `SvgPathData` below. -/
structure DrawCommandWrapper where
  sourceCommand : DrawCommand
  sourceBeziers : List Bezier
  splits : List ℚ
  splitCommands : List DrawCommand
deriving DecidableEq, Repr

/-- Wrapper with no splits for a source command and its segments. -/
def mkWrapper (cmd : DrawCommand) (bezs : List Bezier) : DrawCommandWrapper :=
  ⟨cmd, bezs, [], []⟩

/-- The wrapper's exposed command view (`get commands`): the split-command
list when non-empty, else the single source command. -/
def DrawCommandWrapper.commandsView (w : DrawCommandWrapper) : List DrawCommand :=
  if w.splitCommands.isEmpty then [w.sourceCommand] else w.splitCommands

/-- DrawCommandWrapper.project (lines 309-313): reduce the per-segment
projections, keeping the earlier one only under strictly smaller distance
(`prev && prev.d < curr.d ? prev : curr`, starting from `null`). -/
def DrawCommandWrapper.project (w : DrawCommandWrapper) (p : Point) : Option Projection :=
  (w.sourceBeziers.map (fun bez => bez.project p)).foldl
    (fun prev curr =>
      match prev with
      | none => some curr
      | some pv => some (if pv.d < curr.d then pv else curr))
    none

/-- bezierToDrawCommand (lines 341-354): convert a sub-curve back into a
command of the source command's variant; the final `else` branch (reached
for EllipticalArc, and vacuously for Move) throws. -/
def bezierToDrawCommand (cmd : DrawCommand) (bezier : Bezier) : Except String DrawCommand :=
  match cmd.variant with
  | .line => .ok ⟨.line, [some bezier.start, some bezier.endPt], []⟩
  | .close => .ok ⟨.close, [some bezier.start, some bezier.endPt], []⟩
  | .quad => .ok ⟨.quad, [some bezier.start, some bezier.cp1, some bezier.endPt], []⟩
  | .cubic => .ok ⟨.cubic, [some bezier.start, some bezier.cp1, some bezier.cp2, some bezier.endPt], []⟩
  | _ => .error "TODO: implement split for ellpitical arcs"

/-- Insertion of a split parameter at its sorted position
(`_.sortedIndex` + `splice`: the lowest index keeping the list sorted). -/
def insertSorted (t : ℚ) : List ℚ → List ℚ
  | [] => [t]
  | x :: xs => if t ≤ x then t :: x :: xs else x :: insertSorted t xs

/-- rebuildSplitCommands (lines 326-339): cut the first source Bezier at
the boundaries `[0, t1, ..., tn, 1]` and convert each piece back into a
command; empty split list clears the split commands. -/
def rebuildSplitCommands (w : DrawCommandWrapper) : Except String DrawCommandWrapper :=
  if w.splits.isEmpty then .ok { w with splitCommands := [] } else
  match w.sourceBeziers.head? with
  | none => .error "TypeError: no source bezier"
  | some b0 => do
      let res ← (w.splits ++ [1]).foldlM
        (fun (acc : List DrawCommand × ℚ) currT => do
          let bez := b0.split acc.2 currT
          let c ← bezierToDrawCommand w.sourceCommand bez
          pure (acc.1 ++ [c], currT))
        ([], 0)
      pure { w with splitCommands := res.1 }

/-- DrawCommandWrapper.split (lines 315-324): no-op when there are no
source Beziers; otherwise throw for EllipticalArc sources; otherwise insert
the parameter at its sorted position and rebuild the split commands. -/
def DrawCommandWrapper.split (w : DrawCommandWrapper) (t : ℚ) : Except String DrawCommandWrapper :=
  if w.sourceBeziers.isEmpty then .ok w
  else if w.sourceCommand.variant = .arc then
    .error "TODO: implement split support for elliptical arcs"
  else rebuildSplitCommands { w with splits := insertSorted t w.splits }

/-- A symbolic path-length contribution.  Modelled from the spec: Euclidean
distances and the kernel's arc length (`bez.length()`) are external
numerics; the scan records its contributions symbolically, in order. -/
inductive LengthTerm
  | dist (a b : Point)
  | bez (b : Bezier)
deriving DecidableEq, Repr

/-- A symbolic bounding-box expansion event.  Modelled from the spec: the
kernel's curve bounding box (`bez.bbox()`) is an external numeric; the scan
records each `expandBounds_` point and each `expandBoundsToBezier_` curve. -/
inductive BoundsEvent
  | pt (p : Point)
  | bezBox (b : Bezier)
deriving DecidableEq, Repr

/-- Modelled from the spec: `new Point` with no arguments (mathutil is an
external collaborator); its zero-argument constructor yields the origin. -/
def pointDefault : Point := ⟨0, 0⟩

/-- Modelled from the spec: svgutil.arcToBeziers is an external
collaborator returning a deterministic ordered list of cubic control-point
coordinates (groups of 8 numbers) approximating the arc; we model it by
the single chord cubic from the start to the end point. -/
def arcToBeziers (x0 y0 _rx _ry _xRot _largeArc _sweep x1 y1 : ℚ) : List ℚ :=
  [x0, y0, x0, y0, x1, y1, x1, y1]

/-- State threaded by the derivation pass of `initInternalState`. -/
structure ScanState where
  length : List LengthTerm
  boundsEvents : List BoundsEvent
  firstPoint : Option Point
  currentPoint : Point
  drawCommandWrappers : List DrawCommandWrapper
deriving DecidableEq, Repr

/-- Group a flat coordinate list into Beziers anchored at the running
current point, as the arc branch's `for` loop does (reads coordinates
`i+2 .. i+7` of each group of 8, threading the current point), returning
the Beziers together with the length and bounds contributions. -/
def arcBeziersLoop (cur : Point) : List ℚ → List Bezier
  | _c0 :: _c1 :: c2 :: c3 :: c4 :: c5 :: c6 :: c7 :: rest =>
      let bez : Bezier := ⟨[cur, ⟨c2, c3⟩, ⟨c4, c5⟩, ⟨c6, c7⟩]⟩
      bez :: arcBeziersLoop ⟨c6, c7⟩ rest
  | _ => []

/-- One step of initInternalState (svgpathdata.ts lines 203-287),
dispatching on the command's variant exactly as the source does. -/
def initStep (st : ScanState) (cmd : DrawCommand) : ScanState :=
  match cmd.variant with
  | .move =>
      let nextPoint := cmd.ptAt 1
      { st with
        firstPoint := match st.firstPoint with | none => some nextPoint | some fp => some fp
        currentPoint := nextPoint
        boundsEvents := st.boundsEvents ++ [.pt nextPoint]
        drawCommandWrappers := st.drawCommandWrappers ++ [mkWrapper cmd []] }
  | .line =>
      let nextPoint := cmd.ptAt 1
      { st with
        length := st.length ++ [.dist st.currentPoint nextPoint]
        drawCommandWrappers := st.drawCommandWrappers ++
          [mkWrapper cmd [⟨[st.currentPoint, st.currentPoint, nextPoint, nextPoint]⟩]]
        currentPoint := nextPoint
        boundsEvents := st.boundsEvents ++ [.pt nextPoint] }
  | .close =>
      match st.firstPoint with
      | some fp =>
          { st with
            length := st.length ++ [.dist fp st.currentPoint]
            drawCommandWrappers := st.drawCommandWrappers ++
              [mkWrapper cmd [⟨[st.currentPoint, st.currentPoint, fp, fp]⟩]]
            firstPoint := none }
      | none => { st with firstPoint := none }
  | .cubic =>
      let bez : Bezier := ⟨[st.currentPoint, cmd.ptAt 1, cmd.ptAt 2, cmd.ptAt 3]⟩
      { st with
        drawCommandWrappers := st.drawCommandWrappers ++ [mkWrapper cmd [bez]]
        length := st.length ++ [.bez bez]
        currentPoint := cmd.ptAt 3
        boundsEvents := st.boundsEvents ++ [.bezBox bez] }
  | .quad =>
      let bez : Bezier := ⟨[st.currentPoint, cmd.ptAt 1, cmd.ptAt 2]⟩
      { st with
        drawCommandWrappers := st.drawCommandWrappers ++ [mkWrapper cmd [bez]]
        length := st.length ++ [.bez bez]
        currentPoint := cmd.ptAt 2
        boundsEvents := st.boundsEvents ++ [.bezBox bez] }
  | .arc =>
      let a := fun i => cmd.args.getD i 0
      if a 0 = a 7 ∧ a 1 = a 8 then
        -- degenerate to point (0 length)
        { st with drawCommandWrappers := st.drawCommandWrappers ++ [mkWrapper cmd []] }
      else if a 2 = 0 ∨ a 3 = 0 then
        -- degenerate to line; note the source's `const nextPoint = new Point;`
        let nextPoint := pointDefault
        { st with
          length := st.length ++ [.dist ⟨a 0, a 1⟩ ⟨a 7, a 8⟩]
          boundsEvents := st.boundsEvents ++ [.pt ⟨a 7, a 8⟩]
          drawCommandWrappers := st.drawCommandWrappers ++
            [mkWrapper cmd [⟨[st.currentPoint, st.currentPoint, nextPoint, nextPoint]⟩]]
          currentPoint := nextPoint }
      else
        let coords := arcToBeziers (a 0) (a 1) (a 2) (a 3) (a 4) (a 5) (a 6) (a 7) (a 8)
        let arcBezs := arcBeziersLoop st.currentPoint coords
        { st with
          length := st.length ++ arcBezs.map LengthTerm.bez
          boundsEvents := st.boundsEvents ++ arcBezs.map BoundsEvent.bezBox
          drawCommandWrappers := st.drawCommandWrappers ++ [mkWrapper cmd arcBezs]
          currentPoint := ⟨a 7, a 8⟩ }

/-- initInternalState (lines 180-290): the single left-to-right derivation
scan, starting from no first point and current point `(0, 0)`. -/
def initInternalState (commands : List DrawCommand) : ScanState :=
  commands.foldl initStep ⟨[], [], none, ⟨0, 0⟩, []⟩

/-- SvgPathData: the aggregate's state.  The serialized string `path_` is
modelled by `pathCmds`, the command list it was last generated from
(PathParser.commandsToString is an external, deterministic collaborator;
the string reflects a command list exactly when that list is `pathCmds`). -/
structure SvgPathData where
  drawCommandWrappers : List DrawCommandWrapper
  commands : List SubPathCommand
  pathCmds : List DrawCommand
  length : List LengthTerm
  boundsEvents : List BoundsEvent
deriving DecidableEq, Repr

/-- Flattened command view of a wrapper list
(`[].concat.apply([], wrappers.map(cw => cw.commands))`). -/
def flattenViews (ws : List DrawCommandWrapper) : List DrawCommand :=
  (ws.map DrawCommandWrapper.commandsView).flatten

/-- SvgPathData.rebuildInternalState (lines 56-62): regroup the flattened
wrapper views, and regenerate the serialized string only when asked. -/
def SvgPathData.rebuildInternalState (s : SvgPathData) (rebuildPathString : Bool) : SvgPathData :=
  let drawCommands := flattenViews s.drawCommandWrappers
  { s with
    pathCmds := if rebuildPathString then drawCommands else s.pathCmds
    commands := createSubPathCommands drawCommands }

/-- The SvgPathData constructor (lines 25-36) on an already-parsed command
list: run the derivation pass, then rebuild the grouping (the string stays
the constructor input, i.e. exactly the original command list). -/
def SvgPathData.fromCommands (cmds : List DrawCommand) : SvgPathData :=
  let st := initInternalState cmds
  SvgPathData.rebuildInternalState
    ⟨st.drawCommandWrappers, [], cmds, st.length, st.boundsEvents⟩ false

/-- A projection result of `SvgPathData.project` together with the wrapper
it came from (the source binds a split closure over that wrapper; the
wrapper index identifies it for the state-passing `projectSplit`). -/
structure ProjectionInfo where
  projection : Projection
  wrapperIdx : Nat
deriving DecidableEq, Repr

/-- The mapped-and-filtered projection candidates of SvgPathData.project
(lines 145-154): each wrapper's projection, tagged with its index, keeping
only the non-null ones. -/
def projectItems (p : Point) : Nat → List DrawCommandWrapper → List ProjectionInfo
  | _, [] => []
  | i, cw :: rest =>
      match cw.project p with
      | some pr => ⟨pr, i⟩ :: projectItems p (i + 1) rest
      | none => projectItems p (i + 1) rest

/-- SvgPathData.project (lines 144-158): reduce the candidates, keeping
the earlier one only under strictly smaller distance
(`prev && prev.projection.d < curr.projection.d ? prev : curr`). -/
def SvgPathData.project (s : SvgPathData) (p : Point) : Option ProjectionInfo :=
  (projectItems p 0 s.drawCommandWrappers).foldl
    (fun prev curr =>
      match prev with
      | none => some curr
      | some pv => some (if pv.projection.d < curr.projection.d then pv else curr))
    none

/-- The split closure returned by project (lines 149-152): split the
winning wrapper at the projection parameter, then
`rebuildInternalState(true)`. -/
def SvgPathData.projectSplit (s : SvgPathData) (wrapperIdx : Nat) (t : ℚ) :
    Except String SvgPathData :=
  match s.drawCommandWrappers[wrapperIdx]? with
  | none => .error "no such wrapper"
  | some cw => do
      let cw2 ← cw.split t
      pure (SvgPathData.rebuildInternalState
        { s with drawCommandWrappers := s.drawCommandWrappers.set wrapperIdx cw2 } true)

/-- The onDeleteCommandClick closure of split command `i` (lines 356-369):
remove split parameter `i`, rebuild the wrapper's split commands, then
`rebuildInternalState()` with its default `rebuildPathString = false`. -/
def SvgPathData.onDeleteSplit (s : SvgPathData) (wrapperIdx i : Nat) :
    Except String SvgPathData :=
  match s.drawCommandWrappers[wrapperIdx]? with
  | none => .error "no such wrapper"
  | some cw => do
      let cw2 ← rebuildSplitCommands { cw with splits := cw.splits.eraseIdx i }
      pure (SvgPathData.rebuildInternalState
        { s with drawCommandWrappers := s.drawCommandWrappers.set wrapperIdx cw2 } false)

/-- SvgPathData.isMorphableWith (lines 65-75): same number of sub-paths,
same number of commands per sub-path, and per command the same variant
(`d.constructor === drawCmd.constructor`) and the same number of points. -/
def isMorphableWith (a b : List SubPathCommand) : Bool :=
  a.length == b.length &&
  (a.zip b).all fun sp =>
    sp.1.commands.length == sp.2.commands.length &&
    (sp.1.commands.zip sp.2.commands).all fun dd =>
      dd.1.variant == dd.2.variant && dd.1.points.length == dd.2.points.length

/-- The arc-argument interpolation loop of interpolate (lines 88-95), with
the running `forEach` index: flag positions 5 and 6 snap to the start value
at `fraction === 0` and to the end value otherwise; every other position is
linearly interpolated. -/
def interpArcArgsGo (a1 a2 : List ℚ) (f : ℚ) : Nat → List ℚ → List ℚ
  | _, [] => []
  | i, _ :: rest =>
      (if i = 5 ∨ i = 6 then (if f = 0 then a1.getD i 0 else a2.getD i 0)
       else lerp (a1.getD i 0) (a2.getD i 0) f) :: interpArcArgsGo a1 a2 f (i + 1) rest

/-- Arc-argument interpolation over all indices of the mutated command's
own argument list (`d.args.forEach((_, i) => ...)`). -/
def interpArcArgs (da a1 a2 : List ℚ) (f : ℚ) : List ℚ := interpArcArgsGo a1 a2 f 0 da

/-- The point interpolation loop of interpolate (lines 99-107): for each
index below the start command's point count, when both the start and the
end point are present, replace the mutated command's point by their lerp;
otherwise leave the existing entry (an absent entry for the JS holes a
longer start list would create past the mutated list's end). -/
def interpPointEntry (dflt p e : Option Point) (f : ℚ) : Option Point :=
  match p, e with
  | some sp, some ep => some (lerpPt sp ep f)
  | _, _ => dflt

/-- The recursion of the point interpolation loop over the three point
lists (see `interpPointEntry` for the per-entry rule). -/
def interpPoints : List (Option Point) → List (Option Point) → List (Option Point) → ℚ →
    List (Option Point)
  | dp, [], _, _ => dp
  | [], p :: pt, es, f =>
      interpPointEntry none p (es.headD none) f :: interpPoints [] pt es.tail f
  | d :: dt, p :: pt, es, f =>
      interpPointEntry d p (es.headD none) f :: interpPoints dt pt es.tail f

/-- Per-command interpolation (lines 83-108): EllipticalArc commands have
their raw arguments interpolated (their points are left untouched); every
other variant has its points interpolated. -/
def interpolateDrawCommand (d d1 d2 : DrawCommand) (f : ℚ) : DrawCommand :=
  match d.variant with
  | .arc => { d with args := interpArcArgs d.args d1.args d2.args f }
  | _ => { d with points := interpPoints d.points d1.points d2.points f }

/-- The inner `forEach` of interpolate over one sub-path's commands, each
command paired with the same-index commands of the start and end paths. -/
def interpCmdLists : List DrawCommand → List DrawCommand → List DrawCommand → ℚ →
    List DrawCommand
  | [], _, _, _ => []
  | d :: dt, ds, es, f =>
      interpolateDrawCommand d (ds.headD default) (es.headD default) f ::
        interpCmdLists dt ds.tail es.tail f

/-- The outer `forEach` of interpolate over the sub-paths, each paired with
the same-index sub-paths of the start and end paths. -/
def interpSubLists : List SubPathCommand → List SubPathCommand → List SubPathCommand → ℚ →
    List SubPathCommand
  | [], _, _, _ => []
  | s :: st, ss, es, f =>
      ⟨interpCmdLists s.commands (ss.headD ⟨[]⟩).commands (es.headD ⟨[]⟩).commands f⟩ ::
        interpSubLists st ss.tail es.tail f

/-- SvgPathData.interpolate (lines 78-112) on the commands view: a silent
no-op unless the path is morphable with both the start and the end path;
otherwise mutate every command and rebuild the sub-path grouping from the
flattened result (the serialized string is not regenerated). -/
def interpolateCommands (self start finish : List SubPathCommand) (f : ℚ) :
    List SubPathCommand :=
  if isMorphableWith self start && isMorphableWith self finish then
    createSubPathCommands (flattenSubPaths (interpSubLists self start finish f))
  else self

/-- The shape of a command: its variant and its point count (what
morphability compares). -/
def cmdShape (d : DrawCommand) : Variant × Nat := (d.variant, d.points.length)

/-- The shape of a sub-path: its commands' shapes. -/
def subShape (s : SubPathCommand) : List (Variant × Nat) := s.commands.map cmdShape

/-- The topology of a path: the shapes of its sub-paths. -/
def pathShape (l : List SubPathCommand) : List (List (Variant × Nat)) := l.map subShape

/-- A well-formed sub-path group: non-empty, headed by a Move, with no
other Move (the invariant of every group `createSubPathCommands` builds). -/
def WFsub (s : SubPathCommand) : Bool :=
  match s.commands with
  | [] => false
  | c :: rest => c.variant == Variant.move && rest.all fun x => ! (x.variant == Variant.move)

/-- Decidable equality of fallible results, used to evaluate the concrete
theorems about the Except-valued operations. -/
instance exceptDecEq {ε α : Type} [DecidableEq ε] [DecidableEq α] :
    DecidableEq (Except ε α) := fun a b =>
  match a, b with
  | .ok x, .ok y =>
      if h : x = y then isTrue (by rw [h])
      else isFalse fun hh => h (by injection hh)
  | .error x, .error y =>
      if h : x = y then isTrue (by rw [h])
      else isFalse fun hh => h (by injection hh)
  | .ok _, .error _ => isFalse fun hh => Except.noConfusion hh
  | .error _, .ok _ => isFalse fun hh => Except.noConfusion hh

/-- Demonstration path `"M0,0 L10,0"` used by the concrete theorems. -/
def demoPath : SvgPathData := SvgPathData.fromCommands [mkMove ⟨0, 0⟩, mkLine ⟨0, 0⟩ ⟨10, 0⟩]

/-- Demonstration path with two geometrically identical sub-paths
`"M0,0 L10,0 M0,0 L10,0"`, used to exhibit projection ties. -/
def demoTiePath : SvgPathData := SvgPathData.fromCommands
  [mkMove ⟨0, 0⟩, mkLine ⟨0, 0⟩ ⟨10, 0⟩, mkMove ⟨0, 0⟩, mkLine ⟨0, 0⟩ ⟨10, 0⟩]

/-- The state reached from `demoPath` by splitting the Line wrapper at
`t = 1/2` and then deleting that split again. -/
def demoSplitThenDelete : Except String SvgPathData :=
  (demoPath.projectSplit 1 (1/2)).bind fun s1 => s1.onDeleteSplit 1 0

/-- The state reached from `demoPath` by splitting the Line wrapper at
`t = 1/2` (the successful result of `projectSplit`). -/
def demoSplitState : SvgPathData :=
  (demoPath.projectSplit 1 (1/2)).toOption.getD (SvgPathData.fromCommands [])

/-- The state reached from `demoSplitState` by deleting the split again
(the successful result of `onDeleteSplit`). -/
def demoDeleteState : SvgPathData :=
  (demoSplitState.onDeleteSplit 1 0).toOption.getD (SvgPathData.fromCommands [])

/-- The degenerate line Bezier of the Line of `"M0,0 L10,0"`. -/
def demoLineBezier : Bezier := ⟨[⟨0, 0⟩, ⟨0, 0⟩, ⟨10, 0⟩, ⟨10, 0⟩]⟩

/-- A Line wrapper over `demoLineBezier`. -/
def demoLineWrapper : DrawCommandWrapper :=
  mkWrapper (mkLine ⟨0, 0⟩ ⟨10, 0⟩) [demoLineBezier]

/-- An arc wrapper holding two segments at the same distance from the query
point `(5, 5)`: the lower line `y = 0` and the upper line `y = 10`. -/
def demoTwoSegmentWrapper : DrawCommandWrapper :=
  DrawCommandWrapper.mk (mkArc [0, 0, 5, 5, 0, 0, 0, 10, 10])
    [⟨[⟨0, 0⟩, ⟨0, 0⟩, ⟨10, 0⟩, ⟨10, 0⟩]⟩, ⟨[⟨0, 10⟩, ⟨0, 10⟩, ⟨10, 10⟩, ⟨10, 10⟩]⟩] [] []

theorem foldl_subGroupStep_flatten (r : List DrawCommand) :
    ∀ (G : List (List DrawCommand)) (C : List DrawCommand),
    (r.foldl subGroupStep (G, C)).1.flatten ++ (r.foldl subGroupStep (G, C)).2 =
      G.flatten ++ C ++ r := by
  induction r with
  | nil => intro G C; simp
  | cons cmd r' ih =>
    intro G C
    simp only [List.foldl_cons]
    by_cases h : cmd.variant = .move
    · rw [show subGroupStep (G, C) cmd = (G ++ [C ++ [cmd]], []) from by
        simp [subGroupStep, h]]
      rw [ih]; simp
    · rw [show subGroupStep (G, C) cmd = (G, C ++ [cmd]) from by
        simp [subGroupStep, h]]
      rw [ih]; simp

theorem flattenSubPaths_map_mk (l : List (List DrawCommand)) :
    flattenSubPaths (l.map SubPathCommand.mk) = l.flatten := by
  have h : SubPathCommand.commands ∘ SubPathCommand.mk = id := rfl
  simp [flattenSubPaths, List.map_map, h]

/-- C1 (amended): for a non-empty command sequence that begins with a Move
command, concatenating the command lists of all SubPathCommands of
`createSubPathCommands` reproduces the input exactly; commands preceding
the first Move are dropped by the scan, so the restriction to
Move-headed inputs is necessary. -/
theorem c1_grouping_roundtrip (m : DrawCommand) (rest : List DrawCommand)
    (hm : m.variant = .move) :
    flattenSubPaths (createSubPathCommands (m :: rest)) = m :: rest := by
  have hne : (m :: rest).isEmpty = false := rfl
  rw [createSubPathCommands, hne]
  simp only [Bool.false_eq_true, if_false, flattenSubPaths_map_mk]
  have hrev : (m :: rest).reverse = rest.reverse ++ [m] := by simp
  rw [hrev, List.foldl_append]
  rcases hfold : rest.reverse.foldl subGroupStep ([], []) with ⟨G₀, C₀⟩
  have hstep : subGroupStep (G₀, C₀) m = (G₀ ++ [C₀ ++ [m]], []) := by
    simp [subGroupStep, hm]
  have hinv := foldl_subGroupStep_flatten (rest.reverse ++ [m]) [] []
  rw [List.foldl_append, hfold] at hinv
  simp only [List.foldl_cons, List.foldl_nil, hstep] at hinv ⊢
  have hflat : (G₀ ++ [C₀ ++ [m]]).flatten = rest.reverse ++ [m] := by
    simpa using hinv
  calc ((G₀ ++ [C₀ ++ [m]]).reverse.map List.reverse).flatten
      = ((G₀ ++ [C₀ ++ [m]]).map List.reverse).reverse.flatten := by
        rw [List.map_reverse]
    _ = (G₀ ++ [C₀ ++ [m]]).flatten.reverse := (List.reverse_flatten _).symm
    _ = m :: rest := by rw [hflat]; simp

/-- Witness for the amended C1 theorem at the path `"M0,0 L1,1"`. -/
theorem c1_grouping_roundtrip_witness :
    flattenSubPaths (createSubPathCommands [mkMove ⟨0, 0⟩, mkLine ⟨0, 0⟩ ⟨1, 1⟩]) =
      [mkMove ⟨0, 0⟩, mkLine ⟨0, 0⟩ ⟨1, 1⟩] :=
  c1_grouping_roundtrip (mkMove ⟨0, 0⟩) [mkLine ⟨0, 0⟩ ⟨1, 1⟩] rfl

/-- Counterexample to C1 as stated: for the non-empty sequence consisting
of a single Line command (no leading Move) the grouping drops the command
entirely, so the round trip does not reproduce the input. -/
theorem c1_grouping_counterexample :
    flattenSubPaths (createSubPathCommands [mkLine ⟨0, 0⟩ ⟨1, 1⟩]) ≠
      [mkLine ⟨0, 0⟩ ⟨1, 1⟩] := by decide

/-- C2 (amended): after every successful split operation the owning path's
serialized string and sub-path grouping both reflect the rebuilt flattened
command view; after every successful delete-split operation the flattened
view and the grouping are rebuilt, but the serialized string is not
regenerated (it keeps its previous value). -/
theorem c2_rebuild_after_split_and_delete :
    (∀ (s : SvgPathData) (i : Nat) (t : ℚ) (s2 : SvgPathData),
      s.projectSplit i t = .ok s2 →
      s2.pathCmds = flattenViews s2.drawCommandWrappers ∧
      s2.commands = createSubPathCommands (flattenViews s2.drawCommandWrappers)) ∧
    (∀ (s : SvgPathData) (i j : Nat) (s2 : SvgPathData),
      s.onDeleteSplit i j = .ok s2 →
      s2.commands = createSubPathCommands (flattenViews s2.drawCommandWrappers) ∧
      s2.pathCmds = s.pathCmds) := by
  constructor
  · intro s i t s2 h
    unfold SvgPathData.projectSplit at h
    cases hw : s.drawCommandWrappers[i]? with
    | none => rw [hw] at h; exact absurd h (by simp)
    | some cw =>
      rw [hw] at h
      dsimp only at h
      cases hs : cw.split t with
      | error e =>
        rw [hs] at h
        exact absurd h (by simp [Except.bind])
      | ok cw2 =>
        rw [hs] at h
        simp only [Except.bind, pure, Except.pure] at h
        cases h
        simp [SvgPathData.rebuildInternalState]
  · intro s i j s2 h
    unfold SvgPathData.onDeleteSplit at h
    cases hw : s.drawCommandWrappers[i]? with
    | none => rw [hw] at h; exact absurd h (by simp)
    | some cw =>
      rw [hw] at h
      dsimp only at h
      cases hs : rebuildSplitCommands { cw with splits := cw.splits.eraseIdx j } with
      | error e =>
        rw [hs] at h
        exact absurd h (by simp [Except.bind])
      | ok cw2 =>
        rw [hs] at h
        simp only [Except.bind, pure, Except.pure] at h
        cases h
        simp [SvgPathData.rebuildInternalState]

/-- Witness for the amended C2 theorem: the concrete split of the Line of
`"M0,0 L10,0"` at `t = 1/2` and the deletion of that split. -/
theorem c2_rebuild_witness :
    (demoPath.projectSplit 1 (1/2) = .ok demoSplitState ∧
     demoSplitState.pathCmds = flattenViews demoSplitState.drawCommandWrappers ∧
     demoSplitState.commands =
       createSubPathCommands (flattenViews demoSplitState.drawCommandWrappers)) ∧
    (demoSplitState.onDeleteSplit 1 0 = .ok demoDeleteState ∧
     demoDeleteState.commands =
       createSubPathCommands (flattenViews demoDeleteState.drawCommandWrappers) ∧
     demoDeleteState.pathCmds = demoSplitState.pathCmds) :=
  ⟨⟨by decide, c2_rebuild_after_split_and_delete.1 demoPath 1 (1/2) demoSplitState (by decide)⟩,
   ⟨by decide, c2_rebuild_after_split_and_delete.2 demoSplitState 1 0 demoDeleteState (by decide)⟩⟩

/-- Counterexample to C2 as stated: after deleting the split from the
split state of `"M0,0 L10,0"`, the serialized string still reflects the
pre-delete (split) command list, not the post-delete flattened view. -/
theorem c2_rebuild_counterexample :
    demoSplitThenDelete = .ok demoDeleteState ∧
    demoDeleteState.pathCmds ≠ flattenViews demoDeleteState.drawCommandWrappers := by
  constructor
  · decide
  · decide

theorem wrapperProject_append (w : DrawCommandWrapper) (p : Point) (b : Bezier)
    (r : Projection) (h : w.project p = some r) :
    DrawCommandWrapper.project { w with sourceBeziers := w.sourceBeziers ++ [b] } p =
      some (if r.d < (b.project p).d then r else b.project p) := by
  unfold DrawCommandWrapper.project at h ⊢
  simp only [List.map_append, List.map_cons, List.map_nil, List.foldl_append,
    List.foldl_cons, List.foldl_nil]
  rw [h]

theorem projectItems_append (p : Point) (ws : List DrawCommandWrapper)
    (w : DrawCommandWrapper) :
    ∀ i, projectItems p i (ws ++ [w]) = projectItems p i ws ++
      (match w.project p with
       | some pr => [⟨pr, i + ws.length⟩]
       | none => []) := by
  induction ws with
  | nil =>
    intro i
    simp only [List.nil_append, projectItems, List.length_nil, Nat.add_zero]
  | cons cw rest ih =>
    intro i
    simp only [List.cons_append, projectItems, List.append_eq]
    have hlen : i + 1 + rest.length = i + (cw :: rest).length := by
      simp only [List.length_cons]; omega
    cases cw.project p with
    | none =>
      rw [ih (i + 1)]
      simp only [hlen]
    | some pr =>
      rw [ih (i + 1)]
      simp only [hlen, List.cons_append]

theorem pathProject_append (s : SvgPathData) (p : Point) (w : DrawCommandWrapper)
    (info : ProjectionInfo) (pr : Projection)
    (h : s.project p = some info) (hw : w.project p = some pr) :
    SvgPathData.project
        { s with drawCommandWrappers := s.drawCommandWrappers ++ [w] } p =
      some (if info.projection.d < pr.d then info
            else ⟨pr, s.drawCommandWrappers.length⟩) := by
  unfold SvgPathData.project at h ⊢
  rw [projectItems_append p s.drawCommandWrappers w 0, hw]
  simp only [List.foldl_append, List.foldl_cons, List.foldl_nil, Nat.zero_add]
  rw [h]

/-- C3 (amended): in both reduces of project, ties go to the later, not the
earlier candidate: the earlier segment or wrapper survives only under a
strictly smaller distance.  Appending one segment to a wrapper, the
segment-level result is the previous winner only if its distance is
strictly smaller than the new segment's; appending one wrapper to the path,
the path-level result is the previous winner only if its distance is
strictly smaller than the new wrapper's. -/
theorem c3_tie_breaking :
    (∀ (w : DrawCommandWrapper) (p : Point) (b : Bezier) (r : Projection),
      w.project p = some r →
      DrawCommandWrapper.project { w with sourceBeziers := w.sourceBeziers ++ [b] } p =
        some (if r.d < (b.project p).d then r else b.project p)) ∧
    (∀ (s : SvgPathData) (p : Point) (w : DrawCommandWrapper)
        (info : ProjectionInfo) (pr : Projection),
      s.project p = some info → w.project p = some pr →
      SvgPathData.project
          { s with drawCommandWrappers := s.drawCommandWrappers ++ [w] } p =
        some (if info.projection.d < pr.d then info
              else ⟨pr, s.drawCommandWrappers.length⟩)) :=
  ⟨wrapperProject_append, pathProject_append⟩

set_option maxRecDepth 4000 in
/-- Witness for the amended C3 theorem: appending the identical Line
wrapper to `"M0,0 L10,0"` produces an exact distance tie at the query point
`(5, 5)`, and the appended (later) wrapper wins. -/
theorem c3_tie_breaking_witness :
    ((demoLineWrapper.project ⟨5, 5⟩ = some ⟨5, 0, 1/2, 25⟩) ∧
     DrawCommandWrapper.project
        { demoLineWrapper with
          sourceBeziers := demoLineWrapper.sourceBeziers ++ [demoLineBezier] } ⟨5, 5⟩ =
       some (if (25 : ℚ) < 25 then (⟨5, 0, 1/2, 25⟩ : Projection)
             else demoLineBezier.project ⟨5, 5⟩)) ∧
    ((demoPath.project ⟨5, 5⟩ = some ⟨⟨5, 0, 1/2, 25⟩, 1⟩) ∧
     SvgPathData.project
        { demoPath with
          drawCommandWrappers := demoPath.drawCommandWrappers ++ [demoLineWrapper] } ⟨5, 5⟩ =
       some (if (25 : ℚ) < 25 then (⟨⟨5, 0, 1/2, 25⟩, 1⟩ : ProjectionInfo)
             else ⟨⟨5, 0, 1/2, 25⟩, demoPath.drawCommandWrappers.length⟩)) :=
  ⟨⟨by decide,
    by
      have h := c3_tie_breaking.1 demoLineWrapper ⟨5, 5⟩ demoLineBezier
        ⟨5, 0, 1/2, 25⟩ (by decide)
      rw [h]
      decide⟩,
   ⟨by decide,
    by
      have h := c3_tie_breaking.2 demoPath ⟨5, 5⟩ demoLineWrapper
        ⟨⟨5, 0, 1/2, 25⟩, 1⟩ ⟨5, 0, 1/2, 25⟩ (by decide) (by decide)
      rw [h]⟩⟩

set_option maxRecDepth 4000 in
/-- Counterexample to C3 as stated: in the path with two identical Line
sub-paths, wrappers 1 and 3 project the query point `(5, 5)` at the same
distance, and project keeps wrapper 3, the later one; a two-segment wrapper
whose segments tie likewise keeps the later segment's projection. -/
theorem c3_tie_counterexample :
    (demoTiePath.drawCommandWrappers.map fun w => w.project ⟨5, 5⟩) =
      [none, some ⟨5, 0, 1/2, 25⟩, none, some ⟨5, 0, 1/2, 25⟩] ∧
    (demoTiePath.project ⟨5, 5⟩).map ProjectionInfo.wrapperIdx = some 3 ∧
    demoTwoSegmentWrapper.project ⟨5, 5⟩ = some ⟨5, 10, 1/2, 25⟩ := by
  refine ⟨by decide, by decide, by decide⟩

/-- C4: the code of the `rx == 0 or ry == 0` arc branch contradicts its own
intent comment `degenerate to line`: for the arc from `(5,5)` to `(10,5)`
with `rx = 0` it adds the endpoint distance to `(10,5)` to the length and
expands the bounds by `(10,5)`, but its Bezier ends at the
default-constructed point `(0,0)` (`const nextPoint = new Point;`) and the
threaded current point advances to `(0,0)` instead of `(10,5)`. -/
theorem c4_arc_degenerate_line_bug :
    (initInternalState [mkMove ⟨5, 5⟩, mkArc [5, 5, 0, 3, 0, 0, 0, 10, 5]]).currentPoint =
      ⟨0, 0⟩ ∧
    ((initInternalState [mkMove ⟨5, 5⟩, mkArc [5, 5, 0, 3, 0, 0, 0, 10, 5]]).drawCommandWrappers.map
        DrawCommandWrapper.sourceBeziers).getD 1 [] =
      [⟨[⟨5, 5⟩, ⟨5, 5⟩, ⟨0, 0⟩, ⟨0, 0⟩]⟩] ∧
    (initInternalState [mkMove ⟨5, 5⟩, mkArc [5, 5, 0, 3, 0, 0, 0, 10, 5]]).length =
      [LengthTerm.dist ⟨5, 5⟩ ⟨10, 5⟩] ∧
    (initInternalState [mkMove ⟨5, 5⟩, mkArc [5, 5, 0, 3, 0, 0, 0, 10, 5]]).boundsEvents =
      [BoundsEvent.pt ⟨5, 5⟩, BoundsEvent.pt ⟨10, 5⟩] ∧
    (⟨0, 0⟩ : Point) ≠ ⟨10, 5⟩ := by
  refine ⟨by decide, by decide, by decide, by decide, by decide⟩

theorem interpArcArgsGo_getD (a1 a2 : List ℚ) (f : ℚ) :
    ∀ (l : List ℚ) (j i : Nat), i < l.length →
    (interpArcArgsGo a1 a2 f j l).getD i 0 =
      if j + i = 5 ∨ j + i = 6 then (if f = 0 then a1.getD (j + i) 0 else a2.getD (j + i) 0)
      else lerp (a1.getD (j + i) 0) (a2.getD (j + i) 0) f := by
  intro l
  induction l with
  | nil => intro j i h; simp at h
  | cons x rest ih =>
    intro j i h
    cases i with
    | zero => simp [interpArcArgsGo]
    | succ k =>
      have hk : k < rest.length := by simpa using h
      have := ih (j + 1) k hk
      simp only [interpArcArgsGo, List.getD_cons_succ]
      rw [this, show j + 1 + k = j + (k + 1) from by omega]

/-- C5: in interpolate on an EllipticalArc command, every argument position
except 5 and 6 is set to the lerp of the start and end argument, while the
flag positions 5 and 6 snap to the start argument exactly when the fraction
is 0 and to the end argument for every other fraction. -/
theorem c5_arc_flag_interpolation (d d1 d2 : DrawCommand) (f : ℚ) (i : Nat)
    (hv : d.variant = .arc) (hi : i < d.args.length) :
    (interpolateDrawCommand d d1 d2 f).args.getD i 0 =
      if i = 5 ∨ i = 6 then (if f = 0 then d1.args.getD i 0 else d2.args.getD i 0)
      else lerp (d1.args.getD i 0) (d2.args.getD i 0) f := by
  obtain ⟨v, pts, args⟩ := d
  simp only at hv hi
  subst hv
  show (interpArcArgs args d1.args d2.args f).getD i 0 = _
  unfold interpArcArgs
  have := interpArcArgsGo_getD d1.args d2.args f args 0 i hi
  simpa using this

/-- Witness for C5 at a concrete arc triple: at fraction `1/2` position 0
is interpolated and position 5 takes the end flag; at fraction `0` position
6 takes the start flag. -/
theorem c5_arc_flag_witness :
    ((mkArc [1, 2, 3, 4, 5, 6, 7, 8, 9]).variant = .arc ∧
     5 < (mkArc [1, 2, 3, 4, 5, 6, 7, 8, 9]).args.length ∧
     (interpolateDrawCommand (mkArc [1, 2, 3, 4, 5, 6, 7, 8, 9])
        (mkArc [10, 20, 30, 40, 50, 0, 1, 80, 90])
        (mkArc [0, 0, 0, 0, 0, 1, 0, 0, 0]) (1/2)).args.getD 5 0 =
       (if (5 : Nat) = 5 ∨ (5 : Nat) = 6 then
         (if (1/2 : ℚ) = 0 then (mkArc [10, 20, 30, 40, 50, 0, 1, 80, 90]).args.getD 5 0
          else (mkArc [0, 0, 0, 0, 0, 1, 0, 0, 0]).args.getD 5 0)
        else lerp ((mkArc [10, 20, 30, 40, 50, 0, 1, 80, 90]).args.getD 5 0)
          ((mkArc [0, 0, 0, 0, 0, 1, 0, 0, 0]).args.getD 5 0) (1/2))) ∧
    (interpolateDrawCommand (mkArc [1, 2, 3, 4, 5, 6, 7, 8, 9])
        (mkArc [10, 20, 30, 40, 50, 0, 1, 80, 90])
        (mkArc [0, 0, 0, 0, 0, 1, 0, 0, 0]) (1/2)).args.getD 5 0 = 1 ∧
    (interpolateDrawCommand (mkArc [1, 2, 3, 4, 5, 6, 7, 8, 9])
        (mkArc [10, 20, 30, 40, 50, 0, 1, 80, 90])
        (mkArc [0, 0, 0, 0, 0, 1, 0, 0, 0]) 0).args.getD 6 0 = 1 ∧
    (interpolateDrawCommand (mkArc [1, 2, 3, 4, 5, 6, 7, 8, 9])
        (mkArc [10, 20, 30, 40, 50, 0, 1, 80, 90])
        (mkArc [0, 0, 0, 0, 0, 1, 0, 0, 0]) (1/2)).args.getD 0 0 = 5 :=
  ⟨⟨rfl, by decide,
    c5_arc_flag_interpolation (mkArc [1, 2, 3, 4, 5, 6, 7, 8, 9])
      (mkArc [10, 20, 30, 40, 50, 0, 1, 80, 90])
      (mkArc [0, 0, 0, 0, 0, 1, 0, 0, 0]) (1/2) 5 rfl (by decide)⟩,
   by decide, by decide, by decide⟩

/-- C6 (amended): split first returns as a no-op when the wrapper has no
Bezier segments — including EllipticalArc wrappers, as produced for
degenerate point arcs — and only an arc wrapper that does have segments
raises the unsupported-operation error (before any split-list mutation);
it never silently produces geometry for such an arc. -/
theorem c6_split_guards (w : DrawCommandWrapper) (t : ℚ) :
    (w.sourceBeziers = [] → w.split t = .ok w) ∧
    (w.sourceBeziers ≠ [] → w.sourceCommand.variant = .arc →
      w.split t = .error "TODO: implement split support for elliptical arcs") := by
  constructor
  · intro h
    unfold DrawCommandWrapper.split
    simp [h]
  · intro h1 h2
    unfold DrawCommandWrapper.split
    simp [List.isEmpty_iff, h1, h2]

/-- Witness for the amended C6 theorem: a no-segment arc wrapper no-ops; a
Line-Bezier-backed arc wrapper raises the unsupported-operation error. -/
theorem c6_split_guards_witness :
    ((mkWrapper (mkArc [0, 0, 5, 5, 0, 0, 0, 0, 0]) []).sourceBeziers = [] ∧
     (mkWrapper (mkArc [0, 0, 5, 5, 0, 0, 0, 0, 0]) []).split (1/2) =
       .ok (mkWrapper (mkArc [0, 0, 5, 5, 0, 0, 0, 0, 0]) [])) ∧
    ((mkWrapper (mkArc [5, 5, 1, 1, 0, 0, 0, 10, 5]) [demoLineBezier]).sourceBeziers ≠ [] ∧
     (mkWrapper (mkArc [5, 5, 1, 1, 0, 0, 0, 10, 5]) [demoLineBezier]).sourceCommand.variant =
       .arc ∧
     (mkWrapper (mkArc [5, 5, 1, 1, 0, 0, 0, 10, 5]) [demoLineBezier]).split (1/2) =
       .error "TODO: implement split support for elliptical arcs") :=
  ⟨⟨rfl, (c6_split_guards (mkWrapper (mkArc [0, 0, 5, 5, 0, 0, 0, 0, 0]) []) (1/2)).1 rfl⟩,
   ⟨by decide, rfl,
    (c6_split_guards (mkWrapper (mkArc [5, 5, 1, 1, 0, 0, 0, 10, 5]) [demoLineBezier]) (1/2)).2
      (by decide) rfl⟩⟩

/-- Counterexample to C6 as stated: the derivation pass gives a
degenerate-point EllipticalArc a wrapper with no Bezier segments, and split
on that arc wrapper succeeds as a no-op — the empty-segment check runs
before the arc check, so no unsupported-operation condition is raised. -/
theorem c6_arc_split_counterexample :
    (initInternalState [mkArc [0, 0, 5, 5, 0, 0, 0, 0, 0]]).drawCommandWrappers =
      [⟨mkArc [0, 0, 5, 5, 0, 0, 0, 0, 0], [], [], []⟩] ∧
    DrawCommandWrapper.split ⟨mkArc [0, 0, 5, 5, 0, 0, 0, 0, 0], [], [], []⟩ (1/2) =
      .ok ⟨mkArc [0, 0, 5, 5, 0, 0, 0, 0, 0], [], [], []⟩ ∧
    (mkArc [0, 0, 5, 5, 0, 0, 0, 0, 0]).variant = .arc := by
  refine ⟨by decide, by decide, rfl⟩

/-- C7: when the path is not morphable with the start path or not morphable
with the end path, interpolate is a silent no-op: the commands view is
returned unchanged and no error is raised. -/
theorem c7_interpolate_nonmorphable_noop (self start finish : List SubPathCommand) (f : ℚ)
    (h : isMorphableWith self start = false ∨ isMorphableWith self finish = false) :
    interpolateCommands self start finish f = self := by
  unfold interpolateCommands
  rcases h with h | h <;> simp [h]

/-- Witness for C7: a one-sub-path path is not morphable with the empty
path, and interpolating against it changes nothing. -/
theorem c7_interpolate_noop_witness :
    isMorphableWith [⟨[mkMove ⟨0, 0⟩]⟩] [] = false ∧
    interpolateCommands [⟨[mkMove ⟨0, 0⟩]⟩] [] [] (1/2) = [⟨[mkMove ⟨0, 0⟩]⟩] :=
  ⟨by decide,
   c7_interpolate_nonmorphable_noop [⟨[mkMove ⟨0, 0⟩]⟩] [] [] (1/2) (Or.inl (by decide))⟩

/-- C8 (amended): in the derivation pass a Move always records its endpoint
as the new current point, but records it as the first point of the current
sub-path only when no first point is established; consequently a ClosePath
synthesizes its closing segment from the current point back to the endpoint
of the earliest Move since the last ClosePath, not the most recent Move. -/
theorem c8_move_first_point :
    (∀ (st : ScanState) (c : DrawCommand), c.variant = .move →
      (initStep st c).currentPoint = c.ptAt 1 ∧
      (initStep st c).firstPoint =
        (if st.firstPoint = none then some (c.ptAt 1) else st.firstPoint)) ∧
    (∀ (st : ScanState) (c : DrawCommand) (fp : Point), c.variant = .close →
      st.firstPoint = some fp →
      (initStep st c).drawCommandWrappers =
        st.drawCommandWrappers ++
          [mkWrapper c [⟨[st.currentPoint, st.currentPoint, fp, fp]⟩]]) := by
  constructor
  · intro st c hv
    obtain ⟨v, pts, args⟩ := c
    simp only at hv
    subst hv
    cases hfp : st.firstPoint <;> simp [initStep, hfp]
  · intro st c fp hv hfp
    obtain ⟨v, pts, args⟩ := c
    simp only at hv
    subst hv
    simp [initStep, hfp]

/-- Witness for the amended C8 theorem: a second Move while a first point
is established keeps the old first point, and the subsequent ClosePath
closes back to the first Move's endpoint `(1,1)`, not `(2,2)`. -/
theorem c8_move_first_point_witness :
    ((mkMove ⟨2, 2⟩).variant = .move ∧
     (initStep (initInternalState [mkMove ⟨1, 1⟩]) (mkMove ⟨2, 2⟩)).currentPoint =
       (mkMove ⟨2, 2⟩).ptAt 1 ∧
     (initStep (initInternalState [mkMove ⟨1, 1⟩]) (mkMove ⟨2, 2⟩)).firstPoint =
       (if (initInternalState [mkMove ⟨1, 1⟩]).firstPoint = none
        then some ((mkMove ⟨2, 2⟩).ptAt 1)
        else (initInternalState [mkMove ⟨1, 1⟩]).firstPoint)) ∧
    ((initInternalState [mkMove ⟨1, 1⟩]).firstPoint = some ⟨1, 1⟩) ∧
    (mkClose.variant = .close ∧
     (initInternalState [mkMove ⟨1, 1⟩, mkMove ⟨2, 2⟩]).firstPoint = some ⟨1, 1⟩ ∧
     (initStep (initInternalState [mkMove ⟨1, 1⟩, mkMove ⟨2, 2⟩]) mkClose).drawCommandWrappers =
       (initInternalState [mkMove ⟨1, 1⟩, mkMove ⟨2, 2⟩]).drawCommandWrappers ++
         [mkWrapper mkClose
           [⟨[(initInternalState [mkMove ⟨1, 1⟩, mkMove ⟨2, 2⟩]).currentPoint,
              (initInternalState [mkMove ⟨1, 1⟩, mkMove ⟨2, 2⟩]).currentPoint,
              ⟨1, 1⟩, ⟨1, 1⟩]⟩]]) :=
  ⟨⟨rfl,
    (c8_move_first_point.1 (initInternalState [mkMove ⟨1, 1⟩]) (mkMove ⟨2, 2⟩) rfl).1,
    (c8_move_first_point.1 (initInternalState [mkMove ⟨1, 1⟩]) (mkMove ⟨2, 2⟩) rfl).2⟩,
   by decide,
   ⟨rfl, by decide,
    c8_move_first_point.2 (initInternalState [mkMove ⟨1, 1⟩, mkMove ⟨2, 2⟩]) mkClose ⟨1, 1⟩
      rfl (by decide)⟩⟩

/-- Counterexample to C8 as stated: after `M1,1 M2,2` the recorded first
point is still `(1,1)` — the second Move did not record its endpoint as the
new first point — and the ClosePath of `M1,1 M2,2 Z` synthesizes its
closing segment back to `(1,1)`, not to the most recent Move's `(2,2)`. -/
theorem c8_move_first_point_counterexample :
    (initInternalState [mkMove ⟨1, 1⟩, mkMove ⟨2, 2⟩]).firstPoint = some ⟨1, 1⟩ ∧
    some (⟨1, 1⟩ : Point) ≠ some (⟨2, 2⟩ : Point) ∧
    ((initInternalState [mkMove ⟨1, 1⟩, mkMove ⟨2, 2⟩, mkClose]).drawCommandWrappers.map
        DrawCommandWrapper.sourceBeziers).getD 2 [] =
      [⟨[⟨2, 2⟩, ⟨2, 2⟩, ⟨1, 1⟩, ⟨1, 1⟩]⟩] := by
  refine ⟨by decide, by decide, by decide⟩

/-- C10: a ClosePath met while no first point is established produces no
wrapper and changes nothing in the scan state, so it is absent from the
flattened command view, from the grouped commands and from a regenerated
path string: in `"M0,0 Z Z"` only the first ClosePath survives. -/
theorem c10_dropped_close (st : ScanState) (c : DrawCommand)
    (h1 : st.firstPoint = none) (h2 : c.variant = .close) :
    initStep st c = st ∧
    flattenViews ((SvgPathData.rebuildInternalState
        (SvgPathData.fromCommands [mkMove ⟨0, 0⟩, mkClose, mkClose]) true).drawCommandWrappers) =
      [mkMove ⟨0, 0⟩, mkClose] ∧
    flattenSubPaths (SvgPathData.rebuildInternalState
        (SvgPathData.fromCommands [mkMove ⟨0, 0⟩, mkClose, mkClose]) true).commands =
      [mkMove ⟨0, 0⟩, mkClose] ∧
    (SvgPathData.rebuildInternalState
        (SvgPathData.fromCommands [mkMove ⟨0, 0⟩, mkClose, mkClose]) true).pathCmds =
      [mkMove ⟨0, 0⟩, mkClose] := by
  refine ⟨?_, by decide, by decide, by decide⟩
  obtain ⟨v, pts, args⟩ := c
  simp only at h2
  subst h2
  cases st
  simp only at h1
  subst h1
  simp [initStep]

/-- Witness for C10 at the empty scan state and a parser ClosePath. -/
theorem c10_dropped_close_witness :
    ((⟨[], [], none, ⟨0, 0⟩, []⟩ : ScanState).firstPoint = none ∧
     mkClose.variant = .close) ∧
    initStep ⟨[], [], none, ⟨0, 0⟩, []⟩ mkClose = ⟨[], [], none, ⟨0, 0⟩, []⟩ :=
  ⟨⟨rfl, rfl⟩, (c10_dropped_close ⟨[], [], none, ⟨0, 0⟩, []⟩ mkClose rfl rfl).1⟩

theorem interpolateDrawCommand_variant (d d1 d2 : DrawCommand) (f : ℚ) :
    (interpolateDrawCommand d d1 d2 f).variant = d.variant := by
  obtain ⟨v, pts, args⟩ := d
  cases v <;> rfl

theorem interpPoints_length (p1 : List (Option Point)) :
    ∀ (dp p2 : List (Option Point)) (f : ℚ),
    (interpPoints dp p1 p2 f).length = max dp.length p1.length := by
  induction p1 with
  | nil =>
    intro dp p2 f
    cases dp <;> simp [interpPoints]
  | cons p pt ih =>
    intro dp p2 f
    cases dp with
    | nil =>
      simp only [interpPoints, List.length_cons, ih, List.length_nil]
      omega
    | cons d dt =>
      simp only [interpPoints, List.length_cons, ih, List.length_nil]
      omega

theorem interpolateDrawCommand_shape (d d1 d2 : DrawCommand) (f : ℚ)
    (h : d1.points.length = d.points.length) :
    cmdShape (interpolateDrawCommand d d1 d2 f) = cmdShape d := by
  obtain ⟨v, pts, args⟩ := d
  simp only at h
  cases v <;>
    simp [interpolateDrawCommand, cmdShape, interpPoints_length, h]

theorem zip_all_iff_map_eq {α β : Type} [DecidableEq β] (g : α → β) (f : α × α → Bool)
    (hf : ∀ x y, f (x, y) = true ↔ g x = g y) :
    ∀ (xs ys : List α),
    ((xs.length == ys.length) && (xs.zip ys).all f) = true ↔ xs.map g = ys.map g := by
  intro xs
  induction xs with
  | nil =>
    intro ys
    cases ys <;> simp
  | cons x xt ih =>
    intro ys
    cases ys with
    | nil => simp
    | cons y yt =>
      simp only [List.zip_cons_cons, List.all_cons, List.map_cons, List.cons.injEq,
        Bool.and_eq_true, beq_iff_eq, List.length_cons, Nat.add_right_cancel_iff]
      constructor
      · rintro ⟨hlen, hxy, hall⟩
        exact ⟨(hf x y).1 hxy, (ih yt).1 (by simp [hlen, hall])⟩
      · rintro ⟨hxy, hmap⟩
        have := (ih yt).2 hmap
        simp only [Bool.and_eq_true, beq_iff_eq] at this
        exact ⟨this.1, (hf x y).2 hxy, this.2⟩

theorem isMorphableWith_iff (a b : List SubPathCommand) :
    isMorphableWith a b = true ↔ pathShape a = pathShape b := by
  unfold isMorphableWith pathShape
  apply zip_all_iff_map_eq
  intro s s'
  show (s.commands.length == s'.commands.length &&
    (s.commands.zip s'.commands).all fun dd =>
      dd.1.variant == dd.2.variant && dd.1.points.length == dd.2.points.length) = true ↔ _
  unfold subShape
  apply zip_all_iff_map_eq
  intro d d'
  simp [cmdShape, Prod.ext_iff]

theorem interpCmdLists_map_shape :
    ∀ (dc s1 s2 : List DrawCommand) (f : ℚ),
    s1.map cmdShape = dc.map cmdShape →
    (interpCmdLists dc s1 s2 f).map cmdShape = dc.map cmdShape := by
  intro dc
  induction dc with
  | nil => intro s1 s2 f _; rfl
  | cons d dt ih =>
    intro s1 s2 f h
    cases s1 with
    | nil => simp at h
    | cons x t1 =>
      simp only [List.map_cons, List.cons.injEq] at h
      simp only [interpCmdLists, List.headD_cons, List.tail_cons, List.map_cons,
        List.cons.injEq]
      constructor
      · exact interpolateDrawCommand_shape d x (s2.headD default) f
          (congrArg Prod.snd h.1)
      · exact ih t1 s2.tail f h.2

theorem interpCmdLists_map_variant :
    ∀ (dc s1 s2 : List DrawCommand) (f : ℚ),
    (interpCmdLists dc s1 s2 f).map DrawCommand.variant = dc.map DrawCommand.variant := by
  intro dc
  induction dc with
  | nil => intro s1 s2 f; rfl
  | cons d dt ih =>
    intro s1 s2 f
    simp only [interpCmdLists, List.map_cons, List.cons.injEq]
    exact ⟨interpolateDrawCommand_variant d _ _ f, ih _ _ f⟩

theorem WFsub_destruct (s : SubPathCommand) (h : WFsub s = true) :
    ∃ m rest, s.commands = m :: rest ∧ m.variant = .move ∧
      ∀ x ∈ rest, x.variant ≠ .move := by
  obtain ⟨c⟩ := s
  cases c with
  | nil => exact absurd h (by simp [WFsub])
  | cons m rest =>
    have h2 : (m.variant == Variant.move &&
        rest.all fun x => ! (x.variant == Variant.move)) = true := h
    simp only [Bool.and_eq_true, beq_iff_eq, List.all_eq_true, Bool.not_eq_true',
      beq_eq_false_iff_ne] at h2
    exact ⟨m, rest, rfl, h2.1, h2.2⟩

theorem WFsub_of_variant_map (c c2 : List DrawCommand)
    (h : c2.map DrawCommand.variant = c.map DrawCommand.variant)
    (hw : WFsub ⟨c⟩ = true) : WFsub ⟨c2⟩ = true := by
  cases c with
  | nil => exact absurd hw (by simp [WFsub])
  | cons m rest =>
    cases c2 with
    | nil => simp at h
    | cons m2 rest2 =>
      simp only [List.map_cons, List.cons.injEq] at h
      have hw2 : (m.variant == Variant.move &&
          rest.all fun x => ! (x.variant == Variant.move)) = true := hw
      show (m2.variant == Variant.move &&
          rest2.all fun x => ! (x.variant == Variant.move)) = true
      simp only [Bool.and_eq_true, beq_iff_eq, List.all_eq_true, Bool.not_eq_true',
        beq_eq_false_iff_ne] at hw2 ⊢
      refine ⟨h.1.trans hw2.1, ?_⟩
      intro x hx
      have hmem : x.variant ∈ rest2.map DrawCommand.variant := List.mem_map_of_mem _ hx
      rw [h.2] at hmem
      obtain ⟨y, hy, hyx⟩ := List.mem_map.1 hmem
      rw [← hyx]
      exact hw2.2 y hy

theorem interpSubLists_map_shape :
    ∀ (sl s1 s2 : List SubPathCommand) (f : ℚ),
    pathShape s1 = pathShape sl →
    pathShape (interpSubLists sl s1 s2 f) = pathShape sl := by
  intro sl
  induction sl with
  | nil => intro s1 s2 f _; rfl
  | cons s st ih =>
    intro s1 s2 f h
    cases s1 with
    | nil => simp [pathShape] at h
    | cons u t1 =>
      simp only [pathShape, List.map_cons, List.cons.injEq] at h
      simp only [interpSubLists, List.headD_cons, List.tail_cons, pathShape,
        List.map_cons, List.cons.injEq]
      constructor
      · show subShape ⟨interpCmdLists s.commands u.commands (s2.headD ⟨[]⟩).commands f⟩ =
          subShape s
        unfold subShape
        exact interpCmdLists_map_shape s.commands u.commands _ f h.1
      · exact ih t1 s2.tail f h.2

theorem interpSubLists_WF :
    ∀ (sl s1 s2 : List SubPathCommand) (f : ℚ),
    (∀ s ∈ sl, WFsub s = true) →
    ∀ u ∈ interpSubLists sl s1 s2 f, WFsub u = true := by
  intro sl
  induction sl with
  | nil => intro s1 s2 f _ u hu; simp [interpSubLists] at hu
  | cons s st ih =>
    intro s1 s2 f h u hu
    simp only [interpSubLists, List.mem_cons] at hu
    rcases hu with hu | hu
    · subst hu
      refine WFsub_of_variant_map s.commands _ (interpCmdLists_map_variant _ _ _ f) ?_
      have := h s (List.mem_cons_self _ _)
      exact this
    · exact ih s1.tail s2.tail f (fun v hv => h v (List.mem_cons_of_mem _ hv)) u hu

theorem foldl_subGroupStep_noMove :
    ∀ (r : List DrawCommand) (G : List (List DrawCommand)) (C : List DrawCommand),
    (∀ x ∈ r, x.variant ≠ .move) →
    r.foldl subGroupStep (G, C) = (G, C ++ r) := by
  intro r
  induction r with
  | nil => intro G C _; simp
  | cons x rt ih =>
    intro G C h
    have hx : x.variant ≠ .move := h x (List.mem_cons_self _ _)
    simp only [List.foldl_cons]
    rw [show subGroupStep (G, C) x = (G, C ++ [x]) from by simp [subGroupStep, hx]]
    rw [ih G (C ++ [x]) (fun y hy => h y (List.mem_cons_of_mem _ hy))]
    simp

theorem foldl_subGroupStep_wfGroup (m : DrawCommand) (rest : List DrawCommand)
    (G : List (List DrawCommand)) (hm : m.variant = .move)
    (hr : ∀ x ∈ rest, x.variant ≠ .move) :
    ((m :: rest).reverse).foldl subGroupStep (G, []) = (G ++ [(m :: rest).reverse], []) := by
  rw [List.reverse_cons, List.foldl_append]
  rw [foldl_subGroupStep_noMove rest.reverse G []
    (fun x hx => hr x (List.mem_reverse.1 hx))]
  simp only [List.foldl_cons, List.foldl_nil, List.nil_append]
  simp [subGroupStep, hm]

theorem foldl_subGroupStep_groups :
    ∀ (sps : List SubPathCommand) (G : List (List DrawCommand)),
    (∀ s ∈ sps, WFsub s = true) →
    ((flattenSubPaths sps).reverse).foldl subGroupStep (G, []) =
      (G ++ (sps.map fun s => s.commands.reverse).reverse, []) := by
  intro sps
  induction sps with
  | nil => intro G _; simp [flattenSubPaths]
  | cons s st ih =>
    intro G h
    have hflat : flattenSubPaths (s :: st) = s.commands ++ flattenSubPaths st := by
      simp [flattenSubPaths]
    rw [hflat, List.reverse_append, List.foldl_append]
    rw [ih G (fun u hu => h u (List.mem_cons_of_mem _ hu))]
    obtain ⟨m, rest, hc, hm, hr⟩ := WFsub_destruct s (h s (List.mem_cons_self _ _))
    rw [hc, foldl_subGroupStep_wfGroup m rest _ hm hr, ← hc]
    simp [List.reverse_cons, List.append_assoc]

theorem createSubPathCommands_fix :
    ∀ (sps : List SubPathCommand), (∀ s ∈ sps, WFsub s = true) →
    createSubPathCommands (flattenSubPaths sps) = sps := by
  intro sps h
  cases sps with
  | nil => rfl
  | cons s st =>
    obtain ⟨m, rest, hc, hm, hr⟩ := WFsub_destruct s (h s (List.mem_cons_self _ _))
    have hne : (flattenSubPaths (s :: st)).isEmpty = false := by
      simp [flattenSubPaths, hc]
    unfold createSubPathCommands
    rw [hne]
    simp only [Bool.false_eq_true, if_false]
    rw [foldl_subGroupStep_groups (s :: st) [] h]
    simp only [List.nil_append, List.reverse_reverse, List.map_map]
    show ((s :: st).map fun u => SubPathCommand.mk u.commands.reverse.reverse) = s :: st
    have hfun : (fun u : SubPathCommand => SubPathCommand.mk u.commands.reverse.reverse) =
        id := by
      funext u
      cases u
      simp
    rw [hfun, List.map_id]

/-- C9: interpolate never changes path topology: under the morphability
precondition (and the invariant that every sub-path group of the mutated
path is one the grouping scan builds, a Move followed by non-Moves), the
interpolated path has the same path shape — number of sub-paths, commands
per sub-path, each command's variant and point count — and in particular
stays morphable with both the start and the end path. -/
theorem c9_interpolate_preserves_topology (self start finish : List SubPathCommand) (f : ℚ)
    (h1 : isMorphableWith self start = true) (h2 : isMorphableWith self finish = true)
    (hwf : ∀ s ∈ self, WFsub s = true) :
    pathShape (interpolateCommands self start finish f) = pathShape self ∧
    isMorphableWith (interpolateCommands self start finish f) start = true ∧
    isMorphableWith (interpolateCommands self start finish f) finish = true := by
  have hs1 : pathShape self = pathShape start := (isMorphableWith_iff _ _).1 h1
  have hs2 : pathShape self = pathShape finish := (isMorphableWith_iff _ _).1 h2
  have hmut : pathShape (interpSubLists self start finish f) = pathShape self :=
    interpSubLists_map_shape self start finish f hs1.symm
  have hwf2 : ∀ u ∈ interpSubLists self start finish f, WFsub u = true :=
    interpSubLists_WF self start finish f hwf
  have hval : interpolateCommands self start finish f =
      interpSubLists self start finish f := by
    unfold interpolateCommands
    rw [h1, h2]
    simp only [Bool.and_self, if_true]
    exact createSubPathCommands_fix _ hwf2
  rw [hval]
  exact ⟨hmut, (isMorphableWith_iff _ _).2 (hmut.trans hs1),
    (isMorphableWith_iff _ _).2 (hmut.trans hs2)⟩

/-- Witness for C9 at the morphable pair of single-Line paths interpolated
at fraction `1/2`. -/
theorem c9_interpolate_preserves_topology_witness :
    (isMorphableWith [⟨[mkMove ⟨0, 0⟩, mkLine ⟨0, 0⟩ ⟨0, 0⟩]⟩]
       [⟨[mkMove ⟨0, 0⟩, mkLine ⟨0, 0⟩ ⟨0, 0⟩]⟩] = true ∧
     isMorphableWith [⟨[mkMove ⟨0, 0⟩, mkLine ⟨0, 0⟩ ⟨0, 0⟩]⟩]
       [⟨[mkMove ⟨1, 1⟩, mkLine ⟨1, 1⟩ ⟨10, 10⟩]⟩] = true ∧
     (∀ s ∈ [(⟨[mkMove ⟨0, 0⟩, mkLine ⟨0, 0⟩ ⟨0, 0⟩]⟩ : SubPathCommand)], WFsub s = true)) ∧
    (pathShape (interpolateCommands [⟨[mkMove ⟨0, 0⟩, mkLine ⟨0, 0⟩ ⟨0, 0⟩]⟩]
        [⟨[mkMove ⟨0, 0⟩, mkLine ⟨0, 0⟩ ⟨0, 0⟩]⟩]
        [⟨[mkMove ⟨1, 1⟩, mkLine ⟨1, 1⟩ ⟨10, 10⟩]⟩] (1/2)) =
      pathShape [⟨[mkMove ⟨0, 0⟩, mkLine ⟨0, 0⟩ ⟨0, 0⟩]⟩] ∧
     isMorphableWith (interpolateCommands [⟨[mkMove ⟨0, 0⟩, mkLine ⟨0, 0⟩ ⟨0, 0⟩]⟩]
        [⟨[mkMove ⟨0, 0⟩, mkLine ⟨0, 0⟩ ⟨0, 0⟩]⟩]
        [⟨[mkMove ⟨1, 1⟩, mkLine ⟨1, 1⟩ ⟨10, 10⟩]⟩] (1/2))
       [⟨[mkMove ⟨0, 0⟩, mkLine ⟨0, 0⟩ ⟨0, 0⟩]⟩] = true ∧
     isMorphableWith (interpolateCommands [⟨[mkMove ⟨0, 0⟩, mkLine ⟨0, 0⟩ ⟨0, 0⟩]⟩]
        [⟨[mkMove ⟨0, 0⟩, mkLine ⟨0, 0⟩ ⟨0, 0⟩]⟩]
        [⟨[mkMove ⟨1, 1⟩, mkLine ⟨1, 1⟩ ⟨10, 10⟩]⟩] (1/2))
       [⟨[mkMove ⟨1, 1⟩, mkLine ⟨1, 1⟩ ⟨10, 10⟩]⟩] = true) :=
  ⟨⟨by decide, by decide, by decide⟩,
   c9_interpolate_preserves_topology
     [⟨[mkMove ⟨0, 0⟩, mkLine ⟨0, 0⟩ ⟨0, 0⟩]⟩]
     [⟨[mkMove ⟨0, 0⟩, mkLine ⟨0, 0⟩ ⟨0, 0⟩]⟩]
     [⟨[mkMove ⟨1, 1⟩, mkLine ⟨1, 1⟩ ⟨10, 10⟩]⟩] (1/2)
     (by decide) (by decide) (by decide)⟩
